import Mathlib

/-!
Shallow embedding of the disk-backed LRU image cache from
`src/cpp/image_cache_plain.cpp` (class `LRUCache` and class `ImageCache`)
and `src/cpp/image_cache_functools.cpp` (scan-driven `ImageCache`).

Modelling conventions:
* `std::string` and `fs::path` are Lean `String`s; a path is the cache
  directory, a slash, and the derived filename.
* The on-disk store is the list of paths of files present in the cache
  directory (for the functools variant, pairs of a path and its
  modification time, since its eviction sorts by mtime).
* The environment is a `World`: the digest primitive (`MD5` in the
  source), the remote transfer outcome per URL (libcurl in the source),
  and whether a filesystem write of a given path succeeds (the source
  never checks this).
* Every operation returns the `std::optional` result together with the
  successor state; the state carries a count of remote fetch attempts so
  that "no remote fetch occurs" is expressible.
-/

/-- Outcome of `curl_easy_perform` plus `CURLINFO_RESPONSE_CODE`:
either a transport-level failure or an HTTP response code. -/
inductive RemoteOutcome where
  | transportError : RemoteOutcome
  | response : Int → RemoteOutcome
deriving DecidableEq, Repr

/-- The environment the cache runs against: the digest primitive, the
network, and the filesystem's willingness to persist a write. -/
structure World where
  digest : String → String
  net : String → RemoteOutcome
  writeOk : String → Bool

/-- The characters strictly after the last occurrence of `sep`, if `sep`
occurs at all.  Used for both the last path component (`sep = '/'`,
mirroring `fs::path::filename`) and the extension split (`sep = '.'`). -/
def afterLast (sep : Char) : List Char → Option (List Char)
  | [] => none
  | c :: rest =>
    match afterLast sep rest with
    | some s => some s
    | none => if c = sep then some rest else none

/-- `fs::path(url).filename()`: the component after the last slash
(the whole string when it has no slash). -/
def filenameOf (url : String) : String :=
  match afterLast '/' url.data with
  | some s => String.mk s
  | none => url

/-- `fs::path::extension()` of a filename: the substring from the last
dot (dot included), except that the filenames dot and dot-dot, a
filename without a dot, and a filename whose only dot is its first
character (a hidden file) have an empty extension. -/
def cppExtension (fname : String) : String :=
  if fname = "." ∨ fname = ".." then ""
  else
    match fname.data with
    | [] => ""
    | _ :: rest =>
      match afterLast '.' rest with
      | some s => String.mk ('.' :: s)
      | none => ""

/-- `ImageCache::url_to_filename` (identical in both source variants):
the digest of the whole URL, concatenated with the URL path's extension,
defaulting to `".jpg"` when that extension is empty. -/
def url_to_filename (digest : String → String) (url : String) : String :=
  let hash := digest url
  let extension := cppExtension (filenameOf url)
  let extension := if extension = "" then ".jpg" else extension
  hash ++ extension

/-- Modelled from the spec claim's words, for comparison with
`url_to_filename`: the extension is taken from the text after the last
dot of the identifier's path component, and a fixed default extension is
used when that text is absent or empty. -/
def specKeyFor (digest : String → String) (url : String) : String :=
  let t :=
    match afterLast '.' (filenameOf url).data with
    | some s => String.mk s
    | none => ""
  digest url ++ (if t = "" then ".jpg" else "." ++ t)

/-- The amended description of the extension rule, phrased over the
whole filename the way the amended claim reads: text after the last dot,
empty extension for dot, dot-dot, a dot-less name, or a name whose only
dot is its leading character. -/
def amendedExt (fname : String) : String :=
  if fname = "." ∨ fname = ".." then ""
  else
    match afterLast '.' fname.data with
    | none => ""
    | some s =>
      if fname.data.length = s.length + 1 then ""
      else "." ++ String.mk s

/-! ### The plain variant: `LRUCache` plus `ImageCache`
(`src/cpp/image_cache_plain.cpp`).

`LRUCache<Key, Value>` keeps `items : std::list<std::pair<Key, Value>>`
with the most recently used entry at the front, plus a hash map from key
to list iterator.  The map holds exactly the keys of `items`, so the
list alone carries the state; `cache.find` corresponds to a key search
in the list and erasing through an iterator to erasing that entry. -/

/-- `LRUCache::put`: erase an existing entry with this key; otherwise,
when the list is at capacity, pop the least recent entry from the back
(in the source `items.back()` on an empty list, which only capacity 0
can reach, is undefined behavior; `List.dropLast` leaves `[]`).  Then
push the new entry to the front. -/
def lruPut (maxSize : Nat) (key value : String)
    (items : List (String × String)) : List (String × String) :=
  if items.any (fun p => p.1 == key) then
    (key, value) :: items.eraseP (fun p => p.1 == key)
  else if maxSize ≤ items.length then
    (key, value) :: items.dropLast
  else
    (key, value) :: items

/-- `LRUCache::touch`: when the key is present, splice its entry to the
front; otherwise do nothing. -/
def lruTouch (key : String)
    (items : List (String × String)) : List (String × String) :=
  match items.find? (fun p => p.1 == key) with
  | some e => e :: items.eraseP (fun p => p.1 == key)
  | none => items

/-- `LRUCache::contains`. -/
def lruContains (key : String) (items : List (String × String)) : Bool :=
  items.any (fun p => p.1 == key)

/-- State of the plain `ImageCache`: the LRU index (keyed by URL, valued
by cache path, as in `lru_cache.put(url, cache_path)`), the set of files
present in the cache directory, and the count of remote fetch attempts
performed so far. -/
structure PlainState where
  cacheDir : String
  maxSize : Nat
  items : List (String × String)
  store : List String
  fetches : Nat
deriving Repr, DecidableEq

/-- `ImageCache::get_cache_path`: `cache_dir / url_to_filename(url)`. -/
def plainCachePath (w : World) (s : PlainState) (url : String) : String :=
  s.cacheDir ++ "/" ++ url_to_filename w.digest url

/-- `ImageCache::is_cached`: existence of the backing file. -/
def plain_is_cached (w : World) (s : PlainState) (url : String) : Bool :=
  plainCachePath w s url ∈ s.store

/-- `ImageCache::evict_lru` of the plain variant: an empty stub.  Its
comment in the source says the evicted file must also be deleted from
disk, but no code does so. -/
def plain_evict_lru (s : PlainState) : PlainState :=
  s

/-- `ImageCache::fetch_impl` of the plain variant: call the (no-op)
eviction, perform the remote transfer, and on HTTP 200 write the bytes
(the stream's success is never checked) and `put` the URL into the LRU
index; on any failure return `std::nullopt` with no mutation. -/
def plain_fetch_impl (w : World) (s : PlainState) (url : String) :
    Option String × PlainState :=
  let cachePath := plainCachePath w s url
  let s := plain_evict_lru s
  let s := { s with fetches := s.fetches + 1 }
  match w.net url with
  | RemoteOutcome.response code =>
    if code = 200 then
      let store := if w.writeOk cachePath then
          (if cachePath ∈ s.store then s.store else cachePath :: s.store)
        else s.store
      (some cachePath,
        { s with store := store,
                 items := lruPut s.maxSize url cachePath s.items })
    else
      (none, s)
  | RemoteOutcome.transportError => (none, s)

/-- `ImageCache::fetch` of the plain variant: a hit (no forced refresh
and the backing file exists) touches the index and returns the path;
otherwise it defers to `fetch_impl`. -/
def plain_fetch (w : World) (s : PlainState) (url : String)
    (forceRefresh : Bool) : Option String × PlainState :=
  let cachePath := plainCachePath w s url
  if ¬forceRefresh ∧ cachePath ∈ s.store then
    (some cachePath, { s with items := lruTouch url s.items })
  else
    plain_fetch_impl w s url

/-- `ImageCache::get` of the plain variant: hit path, else
`fetch(url)` with the default `force_refresh = false`. -/
def plain_get (w : World) (s : PlainState) (url : String) :
    Option String × PlainState :=
  let cachePath := plainCachePath w s url
  if cachePath ∈ s.store then
    (some cachePath, { s with items := lruTouch url s.items })
  else
    plain_fetch w s url false

/-! ### The functools variant (`src/cpp/image_cache_functools.cpp`).

Its recency index is `access_order : std::list<std::string>` of URLs
with the most recent at the back (plus the map from URL to iterator);
eviction scans the cache directory, sorts by modification time, and
deletes the oldest file when the file count exceeds the capacity. -/

/-- State of the functools `ImageCache`: the access-order list (front =
least recent), the files in the cache directory with their modification
times, a clock supplying fresh modification times, and the fetch
counter. -/
structure FtState where
  cacheDir : String
  maxSize : Nat
  accessOrder : List String
  store : List (String × Nat)
  clock : Nat
  fetches : Nat
deriving Repr, DecidableEq

/-- Cache path of a URL in the functools variant. -/
def ftCachePath (w : World) (s : FtState) (url : String) : String :=
  s.cacheDir ++ "/" ++ url_to_filename w.digest url

/-- `ImageCache::is_cached` of the functools variant. -/
def ft_is_cached (w : World) (s : FtState) (url : String) : Bool :=
  ftCachePath w s url ∈ s.store.map Prod.fst

/-- `std::sort` on `pair<time_t, path>` orders by time, then path; the
evicted file `files[0]` is the minimum under that order. -/
def fileBefore (a b : String × Nat) : Bool :=
  a.2 < b.2 || (a.2 == b.2 && a.1 < b.1)

/-- The minimum file under `fileBefore`, i.e. `files[0]` after the sort
in `evict_oldest_file`. -/
def oldestFile (files : List (String × Nat)) : Option (String × Nat) :=
  files.foldl
    (fun acc f =>
      match acc with
      | none => some f
      | some g => if fileBefore f g then some f else some g)
    none

/-- `ImageCache::evict_oldest_file`: when the directory holds strictly
more files than the capacity, delete the file with the oldest
modification time. -/
def ftEvictOldest (maxSize : Nat) (files : List (String × Nat)) :
    List (String × Nat) :=
  if maxSize < files.length then
    match oldestFile files with
    | some m => files.filter (fun f => ¬ f.1 = m.1)
    | none => files
  else
    files

/-- `ImageCache::touch_url`: erase the URL's node when present, then
push it to the back (most recent). -/
def ft_touch_url (url : String) (order : List String) : List String :=
  order.erase url ++ [url]

/-- `ImageCache::fetch_impl` of the functools variant: evict the oldest
file when over capacity, perform the remote transfer, and on HTTP 200
write the bytes (unchecked) and `touch_url`; on failure return
`std::nullopt`, keeping whatever the eviction did. -/
def ft_fetch_impl (w : World) (s : FtState) (url : String) :
    Option String × FtState :=
  let cachePath := ftCachePath w s url
  let s := { s with store := ftEvictOldest s.maxSize s.store }
  let s := { s with fetches := s.fetches + 1 }
  match w.net url with
  | RemoteOutcome.response code =>
    if code = 200 then
      let store := if w.writeOk cachePath then
          (cachePath, s.clock) :: s.store.filter (fun f => ¬ f.1 = cachePath)
        else s.store
      (some cachePath,
        { s with store := store,
                 clock := s.clock + 1,
                 accessOrder := ft_touch_url url s.accessOrder })
    else
      (none, s)
  | RemoteOutcome.transportError => (none, s)

/-- `ImageCache::get_impl`: on a hit, `touch_url` and return the path;
otherwise `fetch_impl`. -/
def ft_get_impl (w : World) (s : FtState) (url : String) :
    Option String × FtState :=
  let cachePath := ftCachePath w s url
  if cachePath ∈ s.store.map Prod.fst then
    (some cachePath, { s with accessOrder := ft_touch_url url s.accessOrder })
  else
    ft_fetch_impl w s url

/-- `ImageCache::fetch` of the functools variant: a forced refresh first
erases the URL from the access tracking, then runs `fetch_impl`;
otherwise it is `get_impl`. -/
def ft_fetch (w : World) (s : FtState) (url : String)
    (forceRefresh : Bool) : Option String × FtState :=
  if forceRefresh then
    ft_fetch_impl w { s with accessOrder := s.accessOrder.erase url } url
  else
    ft_get_impl w s url

/-- `ImageCache::get` of the functools variant. -/
def ft_get (w : World) (s : FtState) (url : String) :
    Option String × FtState :=
  ft_get_impl w s url

/-! ### Operation sequences, for the invariant claims. -/

/-- A completed cache operation: a `get`, or a `fetch` with an explicit
`force_refresh` flag (covering hits, successful fetches and forced
refreshes). -/
inductive CacheOp where
  | opGet : String → CacheOp
  | opFetch : String → Bool → CacheOp
deriving Repr, DecidableEq

/-- One operation against the plain variant. -/
def plainStep (w : World) (s : PlainState) : CacheOp → PlainState
  | CacheOp.opGet url => (plain_get w s url).2
  | CacheOp.opFetch url force => (plain_fetch w s url force).2

/-- A sequence of operations against the plain variant. -/
def plainRun (w : World) (s : PlainState) (ops : List CacheOp) : PlainState :=
  ops.foldl (plainStep w) s

/-- One operation against the functools variant. -/
def ftStep (w : World) (s : FtState) : CacheOp → FtState
  | CacheOp.opGet url => (ft_get w s url).2
  | CacheOp.opFetch url force => (ft_fetch w s url force).2

/-- A sequence of operations against the functools variant. -/
def ftRun (w : World) (s : FtState) (ops : List CacheOp) : FtState :=
  ops.foldl (ftStep w) s

/-- The fresh plain cache of `ImageCache::ImageCache`. -/
def plainInit (dir : String) (maxSize : Nat) : PlainState :=
  ⟨dir, maxSize, [], [], 0⟩

/-- The fresh functools cache. -/
def ftInit (dir : String) (maxSize : Nat) : FtState :=
  ⟨dir, maxSize, [], [], 0, 0⟩

/-- A world whose digest is the identity, whose remote transfers all
answer HTTP 200, and whose writes all succeed. -/
def wOk : World :=
  ⟨fun s => s, fun _ => RemoteOutcome.response 200, fun _ => true⟩

/-- A world whose remote transfers all fail at the transport level. -/
def wNetFail : World :=
  ⟨fun s => s, fun _ => RemoteOutcome.transportError, fun _ => true⟩

/-- A world whose remote transfers succeed but whose filesystem writes
all fail. -/
def wWriteFail : World :=
  ⟨fun s => s, fun _ => RemoteOutcome.response 200, fun _ => false⟩

/-- A world whose remote transfers all fail with an HTTP 404 response:
a failure cause different from that of `wNetFail`. -/
def wHttp404 : World :=
  ⟨fun s => s, fun _ => RemoteOutcome.response 404, fun _ => true⟩

/-- Failure of the remote transfer as the Coordinator sees it: a
transport error, or a response with a non-200 status. -/
def netFails (r : RemoteOutcome) : Prop :=
  r = RemoteOutcome.transportError ∨
    ∃ c, r = RemoteOutcome.response c ∧ c ≠ 200

/-- Four distinct identifiers fetched in order, with no hits. -/
def opsFour : List CacheOp :=
  [CacheOp.opGet "u1", CacheOp.opGet "u2", CacheOp.opGet "u3",
   CacheOp.opGet "u4"]

/-- The LRU-ordering scenario: fetch a, b, c, hit a, fetch x. -/
def opsLru : List CacheOp :=
  [CacheOp.opGet "a", CacheOp.opGet "b", CacheOp.opGet "c",
   CacheOp.opGet "a", CacheOp.opGet "x"]

/-- A plain-variant state with u1 already cached. -/
def spCached : PlainState := ⟨"d", 3, [("u1", "d/u1.jpg")], ["d/u1.jpg"], 1⟩

/-- A functools-variant state with u1 already cached and indexed. -/
def sfCached : FtState := ⟨"d", 3, ["u1"], [("d/u1.jpg", 0)], 1, 1⟩

/-- A functools-variant state whose store holds u1's file while the
access-order list is empty (e.g. right after a process restart). -/
def sfEmptyIdx : FtState := ⟨"d", 3, [], [("d/u1.jpg", 0)], 1, 1⟩

/-! ### Theorems. -/

theorem afterLast_length_lt {sep : Char} :
    ∀ {l s : List Char}, afterLast sep l = some s → s.length < l.length := by
  intro l
  induction l with
  | nil => intro s h; simp [afterLast] at h
  | cons c rest ih =>
    intro s h
    simp only [afterLast] at h
    cases hr : afterLast sep rest with
    | some t =>
      rw [hr] at h
      cases h
      exact Nat.lt_succ_of_lt (ih hr)
    | none =>
      rw [hr] at h
      by_cases hc : c = sep
      · simp [hc] at h
        cases h
        exact Nat.lt_succ_self _
      · simp [hc] at h

theorem cppExtension_eq_amendedExt (fname : String) :
    cppExtension fname = amendedExt fname := by
  unfold cppExtension amendedExt
  by_cases hdot : fname = "." ∨ fname = ".."
  · simp [hdot]
  · simp only [hdot, if_false]
    cases hd : fname.data with
    | nil => simp [hd, afterLast]
    | cons c rest =>
      simp only [hd]
      cases hr : afterLast '.' rest with
      | some s =>
        have h1 : afterLast '.' (c :: rest) = some s := by
          simp [afterLast, hr]
        simp only [hr, h1]
        have hlt : s.length < rest.length := afterLast_length_lt hr
        have hne : ¬ ((c :: rest).length = s.length + 1) := by
          simp only [List.length_cons]
          omega
        rw [if_neg hne]
        rfl
      | none =>
        by_cases hc : c = '.'
        · have h1 : afterLast '.' (c :: rest) = some rest := by
            simp [afterLast, hr, hc]
          simp only [hr, h1]
          rw [if_pos (by simp)]
        · have h1 : afterLast '.' (c :: rest) = none := by
            simp [afterLast, hr, hc]
          simp only [hr, h1]

theorem find?_cons_eraseP_perm {α : Type} {p : α → Bool} :
    ∀ {l : List α} {e : α}, l.find? p = some e → l.Perm (e :: l.eraseP p) := by
  intro l
  induction l with
  | nil => intro e h; simp at h
  | cons a t ih =>
    intro e h
    cases hpa : p a with
    | true =>
      rw [List.find?_cons_of_pos _ hpa] at h
      cases h
      rw [List.eraseP_cons_of_pos hpa]
    | false =>
      rw [List.find?_cons_of_neg _ (by simp [hpa])] at h
      rw [List.eraseP_cons_of_neg (by simp [hpa])]
      exact (List.Perm.cons a (ih h)).trans (List.Perm.swap e a _)

theorem lruTouch_perm (key : String) (items : List (String × String)) :
    (lruTouch key items).Perm items := by
  unfold lruTouch
  cases h : items.find? (fun p => p.1 == key) with
  | none => exact List.Perm.refl _
  | some e => exact (find?_cons_eraseP_perm h).symm

theorem lruTouch_length (key : String) (items : List (String × String)) :
    (lruTouch key items).length = items.length :=
  (lruTouch_perm key items).length_eq

theorem lruPut_length_le (cap : Nat) (key value : String)
    (items : List (String × String)) (hcap : 0 < cap)
    (h : items.length ≤ cap) :
    (lruPut cap key value items).length ≤ cap := by
  unfold lruPut
  by_cases hmem : items.any (fun p => p.1 == key) = true
  · simp only [hmem, if_true, List.length_cons]
    obtain ⟨x, hx, hpx⟩ := List.any_eq_true.mp hmem
    have h1 : (items.eraseP (fun p => p.1 == key)).length = items.length - 1 :=
      List.length_eraseP_of_mem hx hpx
    have h0 : 0 < items.length := List.length_pos_of_mem hx
    omega
  · rw [if_neg hmem]
    by_cases hfull : cap ≤ items.length
    · rw [if_pos hfull]
      simp only [List.length_cons, List.length_dropLast]
      omega
    · rw [if_neg hfull]
      simp only [List.length_cons]
      omega

theorem plain_fetch_impl_shape (w : World) (s : PlainState) (url : String) :
    (plain_fetch_impl w s url).2.cacheDir = s.cacheDir ∧
    (plain_fetch_impl w s url).2.maxSize = s.maxSize ∧
    ((plain_fetch_impl w s url).2.items = s.items ∨
     (plain_fetch_impl w s url).2.items =
       lruPut s.maxSize url (plainCachePath w s url) s.items) := by
  unfold plain_fetch_impl plain_evict_lru
  cases w.net url with
  | transportError => simp
  | response code =>
    by_cases h : code = 200
    · simp [h]
    · simp [h]

theorem plain_fetch_shape (w : World) (s : PlainState) (url : String)
    (force : Bool) :
    (plain_fetch w s url force).2.cacheDir = s.cacheDir ∧
    (plain_fetch w s url force).2.maxSize = s.maxSize ∧
    ((plain_fetch w s url force).2.items = s.items ∨
     (plain_fetch w s url force).2.items = lruTouch url s.items ∨
     (plain_fetch w s url force).2.items =
       lruPut s.maxSize url (plainCachePath w s url) s.items) := by
  unfold plain_fetch
  by_cases h : ¬force = true ∧ plainCachePath w s url ∈ s.store
  · rw [if_pos h]
    exact ⟨rfl, rfl, Or.inr (Or.inl rfl)⟩
  · rw [if_neg h]
    have := plain_fetch_impl_shape w s url
    exact ⟨this.1, this.2.1, this.2.2.elim Or.inl (fun h2 => Or.inr (Or.inr h2))⟩

theorem plain_get_shape (w : World) (s : PlainState) (url : String) :
    (plain_get w s url).2.cacheDir = s.cacheDir ∧
    (plain_get w s url).2.maxSize = s.maxSize ∧
    ((plain_get w s url).2.items = s.items ∨
     (plain_get w s url).2.items = lruTouch url s.items ∨
     (plain_get w s url).2.items =
       lruPut s.maxSize url (plainCachePath w s url) s.items) := by
  unfold plain_get
  by_cases h : plainCachePath w s url ∈ s.store
  · rw [if_pos h]
    exact ⟨rfl, rfl, Or.inr (Or.inl rfl)⟩
  · rw [if_neg h]
    exact plain_fetch_shape w s url false

theorem plainStep_length_le (w : World) (s : PlainState) (op : CacheOp)
    (hcap : 0 < s.maxSize) (h : s.items.length ≤ s.maxSize) :
    (plainStep w s op).items.length ≤ s.maxSize := by
  cases op with
  | opGet url =>
    have hs := plain_get_shape w s url
    show (plain_get w s url).2.items.length ≤ s.maxSize
    rcases hs.2.2 with h1 | h1 | h1 <;> rw [h1]
    · exact h
    · rw [lruTouch_length]; exact h
    · exact lruPut_length_le _ _ _ _ hcap h
  | opFetch url force =>
    have hs := plain_fetch_shape w s url force
    show (plain_fetch w s url force).2.items.length ≤ s.maxSize
    rcases hs.2.2 with h1 | h1 | h1 <;> rw [h1]
    · exact h
    · rw [lruTouch_length]; exact h
    · exact lruPut_length_le _ _ _ _ hcap h

theorem plainStep_maxSize (w : World) (s : PlainState) (op : CacheOp) :
    (plainStep w s op).maxSize = s.maxSize := by
  cases op with
  | opGet url => exact (plain_get_shape w s url).2.1
  | opFetch url force => exact (plain_fetch_shape w s url force).2.1

theorem plainRun_length_le (w : World) :
    ∀ (ops : List CacheOp) (s : PlainState), 0 < s.maxSize →
      s.items.length ≤ s.maxSize →
      (plainRun w s ops).items.length ≤ s.maxSize := by
  intro ops
  induction ops with
  | nil => intro s _ h; exact h
  | cons op rest ih =>
    intro s hcap h
    show (plainRun w (plainStep w s op) rest).items.length ≤ s.maxSize
    have hmax := plainStep_maxSize w s op
    have := ih (plainStep w s op) (hmax ▸ hcap)
      (hmax ▸ plainStep_length_le w s op hcap h)
    rw [hmax] at this
    exact this


theorem plain_get_hit (w : World) (s : PlainState) (url : String)
    (h : plainCachePath w s url ∈ s.store) :
    plain_get w s url =
      (some (plainCachePath w s url),
        { s with items := lruTouch url s.items }) := by
  unfold plain_get
  rw [if_pos h]

theorem plain_get_miss (w : World) (s : PlainState) (url : String)
    (h : plainCachePath w s url ∉ s.store) :
    plain_get w s url = plain_fetch_impl w s url := by
  unfold plain_get plain_fetch
  rw [if_neg h, if_neg (fun hc => h hc.2)]

theorem plain_fetch_impl_fail (w : World) (s : PlainState) (url : String)
    (h : netFails (w.net url)) :
    plain_fetch_impl w s url = (none, { s with fetches := s.fetches + 1 }) := by
  unfold plain_fetch_impl plain_evict_lru
  rcases h with h | ⟨c, hc, hne⟩
  · rw [h]
  · rw [hc]
    simp only []
    rw [if_neg hne]

theorem plain_fetch_impl_ok (w : World) (s : PlainState) (url : String)
    (h : w.net url = RemoteOutcome.response 200) :
    plain_fetch_impl w s url =
      (some (plainCachePath w s url),
        { s with fetches := s.fetches + 1,
                 store := if w.writeOk (plainCachePath w s url) then
                     (if plainCachePath w s url ∈ s.store then s.store
                      else plainCachePath w s url :: s.store)
                   else s.store,
                 items := lruPut s.maxSize url (plainCachePath w s url)
                   s.items }) := by
  unfold plain_fetch_impl plain_evict_lru
  rw [h]
  simp

theorem ft_get_hit (w : World) (s : FtState) (url : String)
    (h : ftCachePath w s url ∈ s.store.map Prod.fst) :
    ft_get w s url =
      (some (ftCachePath w s url),
        { s with accessOrder := ft_touch_url url s.accessOrder }) := by
  unfold ft_get ft_get_impl
  rw [if_pos h]

theorem ft_get_miss (w : World) (s : FtState) (url : String)
    (h : ftCachePath w s url ∉ s.store.map Prod.fst) :
    ft_get w s url = ft_fetch_impl w s url := by
  unfold ft_get ft_get_impl
  rw [if_neg h]

theorem ft_fetch_impl_fail (w : World) (s : FtState) (url : String)
    (h : netFails (w.net url)) :
    ft_fetch_impl w s url =
      (none, { s with store := ftEvictOldest s.maxSize s.store,
                      fetches := s.fetches + 1 }) := by
  unfold ft_fetch_impl
  rcases h with h | ⟨c, hc, hne⟩
  · rw [h]
  · rw [hc]
    simp only []
    rw [if_neg hne]

theorem ft_fetch_impl_ok (w : World) (s : FtState) (url : String)
    (h : w.net url = RemoteOutcome.response 200) :
    ft_fetch_impl w s url =
      (some (ftCachePath w s url),
        { s with
          store := if w.writeOk (ftCachePath w s url) then
              (ftCachePath w s url, s.clock) ::
                (ftEvictOldest s.maxSize s.store).filter
                  (fun f => ¬ f.1 = ftCachePath w s url)
            else ftEvictOldest s.maxSize s.store,
          clock := s.clock + 1,
          fetches := s.fetches + 1,
          accessOrder := ft_touch_url url s.accessOrder }) := by
  unfold ft_fetch_impl
  rw [h]
  simp

theorem ft_fetch_forced (w : World) (s : FtState) (url : String) :
    ft_fetch w s url true =
      ft_fetch_impl w { s with accessOrder := s.accessOrder.erase url }
        url := by
  unfold ft_fetch
  rw [if_pos rfl]



/-- C1, amended part: in the plain (index-driven) variant, for every
positive configured capacity and every sequence of completed cache
operations, the recency index's size is at most the capacity after each
operation completes. -/
theorem C1_plain_capacity_invariant (w : World) (dir : String) (cap : Nat)
    (ops : List CacheOp) (hcap : 0 < cap) :
    (plainRun w (plainInit dir cap) ops).items.length ≤ cap := by
  exact plainRun_length_le w ops (plainInit dir cap) hcap (Nat.zero_le cap)

/-- C1, witness: the invariant at capacity 3 over four fetches. -/
theorem C1_plain_capacity_invariant_witness :
    0 < 3 ∧ (plainRun wOk (plainInit "d" 3) opsFour).items.length ≤ 3 :=
  ⟨by decide, C1_plain_capacity_invariant wOk "d" 3 opsFour (by decide)⟩

/-- C1, counterexample: in the functools variant with capacity 3, after
four successful fetches the recency index (`access_order`) holds four
entries, exceeding the capacity; the claim as stated is false. -/
theorem C1_functools_unbounded_index :
    ¬ ((ftRun wOk (ftInit "d" 3) opsFour).accessOrder.length ≤ 3) := by
  decide

/-- C2: with capacity 3, after the four successful fetches u1..u4 the
first-fetched identifier is still cached in both variants — `is_cached`
returns true and u1's backing file is still present — contradicting the
claim (and, for the plain variant, the source's own comment in
`evict_lru` that the evicted file must be deleted from disk). -/
theorem C2_first_key_still_cached :
    plain_is_cached wOk (plainRun wOk (plainInit "d" 3) opsFour) "u1" = true ∧
    "d/u1.jpg" ∈ (plainRun wOk (plainInit "d" 3) opsFour).store ∧
    ft_is_cached wOk (ftRun wOk (ftInit "d" 3) opsFour) "u1" = true ∧
    "d/u1.jpg" ∈ (ftRun wOk (ftInit "d" 3) opsFour).store.map Prod.fst := by
  decide

/-- C3, counterexample: in the functools variant, after fetching a, b,
c, hitting a and fetching x with capacity 3, b has not been evicted at
all — it is still in the access order and its file is still on disk —
so "the evicted entry is B" is false there (the fourth fetch evicts
nothing because eviction requires the file count to exceed the
capacity). -/
theorem C3_functools_no_eviction :
    "b" ∈ (ftRun wOk (ftInit "d" 3) opsLru).accessOrder ∧
    "d/b.jpg" ∈ (ftRun wOk (ftInit "d" 3) opsLru).store.map Prod.fst := by
  decide

/-- C3, amended: in the plain variant the scenario evicts b (not a)
from the recency index, which afterwards holds exactly x, a, c in
most-to-least-recent order; in the functools variant the fifth
operation evicts nothing, leaving four files on disk. -/
theorem C3_lru_ordering_amended :
    (plainRun wOk (plainInit "d" 3) opsLru).items.map Prod.fst =
      ["x", "a", "c"] ∧
    lruContains "b" (plainRun wOk (plainInit "d" 3) opsLru).items = false ∧
    lruContains "a" (plainRun wOk (plainInit "d" 3) opsLru).items = true ∧
    ((ftRun wOk (ftInit "d" 3) opsLru).store.map Prod.fst).length = 4 := by
  decide

theorem plain_fetch_forced (w : World) (s : PlainState) (url : String) :
    plain_fetch w s url true = plain_fetch_impl w s url := by
  unfold plain_fetch
  rw [if_neg (fun hc => hc.1 rfl)]

theorem plain_fetch_impl_fetches (w : World) (s : PlainState)
    (url : String) :
    (plain_fetch_impl w s url).2.fetches = s.fetches + 1 := by
  unfold plain_fetch_impl plain_evict_lru
  cases hnet : w.net url with
  | transportError => rfl
  | response c =>
    by_cases h : c = 200
    · simp [h]
    · simp [h]

theorem ft_fetch_impl_fetches (w : World) (s : FtState) (url : String) :
    (ft_fetch_impl w s url).2.fetches = s.fetches + 1 := by
  unfold ft_fetch_impl
  cases hnet : w.net url with
  | transportError => rfl
  | response c =>
    by_cases h : c = 200
    · simp [h]
    · simp [h]

theorem lruPut_head (cap : Nat) (k v : String)
    (items : List (String × String)) :
    (lruPut cap k v items).head? = some (k, v) := by
  unfold lruPut
  by_cases h1 : items.any (fun p => p.1 == k) = true
  · rw [if_pos h1]
    rfl
  · rw [if_neg h1]
    by_cases h2 : cap ≤ items.length
    · rw [if_pos h2]
      rfl
    · rw [if_neg h2]
      rfl

theorem ftEvictOldest_subset (n : Nat) (files : List (String × Nat)) :
    ftEvictOldest n files ⊆ files := by
  unfold ftEvictOldest
  by_cases h : n < files.length
  · rw [if_pos h]
    cases oldestFile files with
    | none => exact fun _ hx => hx
    | some m => exact List.filter_subset' _
  · rw [if_neg h]
    exact fun _ hx => hx

theorem ftEvictOldest_fst_subset (n : Nat) (files : List (String × Nat))
    (x : String) (hx : x ∈ (ftEvictOldest n files).map Prod.fst) :
    x ∈ files.map Prod.fst := by
  simp only [List.mem_map] at hx ⊢
  obtain ⟨f, hf, hfx⟩ := hx
  exact ⟨f, ftEvictOldest_subset n files hf, hfx⟩

theorem plain_get_success (w : World) (s : PlainState) (url : String)
    (p : String) (s' : PlainState)
    (h : plain_get w s url = (some p, s'))
    (hw : w.writeOk (plainCachePath w s url) = true) :
    p = plainCachePath w s url ∧ s'.cacheDir = s.cacheDir ∧
      plainCachePath w s url ∈ s'.store := by
  by_cases hmem : plainCachePath w s url ∈ s.store
  · rw [plain_get_hit w s url hmem] at h
    injection h with h1 h2
    injection h1 with h1
    rw [← h2]
    exact ⟨h1.symm, rfl, hmem⟩
  · rw [plain_get_miss w s url hmem] at h
    cases hnet : w.net url with
    | transportError =>
      rw [plain_fetch_impl_fail w s url (Or.inl hnet)] at h
      injection h with h1 _
      exact absurd h1 (by simp)
    | response c =>
      by_cases hc : c = 200
      · subst hc
        rw [plain_fetch_impl_ok w s url hnet] at h
        injection h with h1 h2
        injection h1 with h1
        rw [← h2]
        refine ⟨h1.symm, rfl, ?_⟩
        show plainCachePath w s url ∈
          (if w.writeOk (plainCachePath w s url) then
            (if plainCachePath w s url ∈ s.store then s.store
             else plainCachePath w s url :: s.store)
           else s.store)
        rw [if_pos hw, if_neg hmem]
        exact List.mem_cons_self _ _
      · rw [plain_fetch_impl_fail w s url (Or.inr ⟨c, hnet, hc⟩)] at h
        injection h with h1 _
        exact absurd h1 (by simp)

theorem ft_get_success (w : World) (s : FtState) (url : String)
    (p : String) (s' : FtState)
    (h : ft_get w s url = (some p, s'))
    (hw : w.writeOk (ftCachePath w s url) = true) :
    p = ftCachePath w s url ∧ s'.cacheDir = s.cacheDir ∧
      ftCachePath w s url ∈ s'.store.map Prod.fst := by
  by_cases hmem : ftCachePath w s url ∈ s.store.map Prod.fst
  · rw [ft_get_hit w s url hmem] at h
    injection h with h1 h2
    injection h1 with h1
    rw [← h2]
    exact ⟨h1.symm, rfl, hmem⟩
  · rw [ft_get_miss w s url hmem] at h
    cases hnet : w.net url with
    | transportError =>
      rw [ft_fetch_impl_fail w s url (Or.inl hnet)] at h
      injection h with h1 _
      exact absurd h1 (by simp)
    | response c =>
      by_cases hc : c = 200
      · subst hc
        rw [ft_fetch_impl_ok w s url hnet] at h
        injection h with h1 h2
        injection h1 with h1
        rw [← h2]
        refine ⟨h1.symm, rfl, ?_⟩
        show ftCachePath w s url ∈
          ((if w.writeOk (ftCachePath w s url) then
            (ftCachePath w s url, s.clock) ::
              (ftEvictOldest s.maxSize s.store).filter
                (fun f => ¬ f.1 = ftCachePath w s url)
           else ftEvictOldest s.maxSize s.store)).map Prod.fst
        rw [if_pos hw]
        exact List.mem_map.mpr ⟨_, List.mem_cons_self _ _, rfl⟩
      · rw [ft_fetch_impl_fail w s url (Or.inr ⟨c, hnet, hc⟩)] at h
        injection h with h1 _
        exact absurd h1 (by simp)

theorem plainCachePath_congr (w : World) {s s' : PlainState} (url : String)
    (h : s'.cacheDir = s.cacheDir) :
    plainCachePath w s' url = plainCachePath w s url := by
  unfold plainCachePath
  rw [h]

theorem ftCachePath_congr (w : World) {s s' : FtState} (url : String)
    (h : s'.cacheDir = s.cacheDir) :
    ftCachePath w s' url = ftCachePath w s url := by
  unfold ftCachePath
  rw [h]




/-- C4: hit semantics, both variants.  When the key's backing file is in
the Store, a non-forced get touches the recency index and returns the
existing local path with the fetch counter (hence the network) untouched;
and any successful get whose write succeeded leaves the identifier
cached, so the immediately following get is a hit: it returns the same
path and performs no remote fetch. -/
theorem C4_hit_semantics (w : World) (sp : PlainState) (sf : FtState)
    (url : String) :
    (plainCachePath w sp url ∈ sp.store →
      plain_get w sp url =
        (some (plainCachePath w sp url),
          { sp with items := lruTouch url sp.items })) ∧
    (∀ p sp', plain_get w sp url = (some p, sp') →
      w.writeOk (plainCachePath w sp url) = true →
      plain_is_cached w sp' url = true ∧
      (plain_get w sp' url).2.fetches = sp'.fetches ∧
      (plain_get w sp' url).1 = some p) ∧
    (ftCachePath w sf url ∈ sf.store.map Prod.fst →
      ft_get w sf url =
        (some (ftCachePath w sf url),
          { sf with accessOrder := ft_touch_url url sf.accessOrder })) ∧
    (∀ p sf', ft_get w sf url = (some p, sf') →
      w.writeOk (ftCachePath w sf url) = true →
      ft_is_cached w sf' url = true ∧
      (ft_get w sf' url).2.fetches = sf'.fetches ∧
      (ft_get w sf' url).1 = some p) := by
  refine ⟨fun h => plain_get_hit w sp url h, ?_, fun h => ft_get_hit w sf url h, ?_⟩
  · intro p sp' h hw
    obtain ⟨hp, hdir, hmem⟩ := plain_get_success w sp url p sp' h hw
    have hmem' : plainCachePath w sp' url ∈ sp'.store := by
      rw [plainCachePath_congr w url hdir]
      exact hmem
    refine ⟨by simp [plain_is_cached, hmem'], ?_, ?_⟩
    · rw [plain_get_hit w sp' url hmem']
    · rw [plain_get_hit w sp' url hmem']
      rw [plainCachePath_congr w url hdir, ← hp]
  · intro p sf' h hw
    obtain ⟨hp, hdir, hmem⟩ := ft_get_success w sf url p sf' h hw
    have hmem' : ftCachePath w sf' url ∈ sf'.store.map Prod.fst := by
      rw [ftCachePath_congr w url hdir]
      exact hmem
    refine ⟨by simp [ft_is_cached, hmem'], ?_, ?_⟩
    · rw [ft_get_hit w sf' url hmem']
    · rw [ft_get_hit w sf' url hmem']
      rw [ftCachePath_congr w url hdir, ← hp]

/-- C4, witness: a hit on a cached state, both variants. -/
theorem C4_hit_semantics_witness :
    plain_get wOk spCached "u1" =
      (some (plainCachePath wOk spCached "u1"),
        { spCached with items := lruTouch "u1" spCached.items }) ∧
    plain_is_cached wOk
      { spCached with items := lruTouch "u1" spCached.items } "u1" = true ∧
    ft_get wOk sfCached "u1" =
      (some (ftCachePath wOk sfCached "u1"),
        { sfCached with accessOrder := ft_touch_url "u1" sfCached.accessOrder }) ∧
    ft_is_cached wOk
      { sfCached with accessOrder := ft_touch_url "u1" sfCached.accessOrder }
      "u1" = true := by
  have h := C4_hit_semantics wOk spCached sfCached "u1"
  have hp := h.1 (by decide)
  have hf := h.2.2.1 (by decide)
  exact ⟨hp, (h.2.1 _ _ hp (by decide)).1, hf, (h.2.2.2 _ _ hf (by decide)).1⟩

/-- C5, counterexample: two failing transfers with different causes — a
transport error and an HTTP 404 — yield results of get that are
identical in every observable (the same bare failure value and the same
successor state), so the value get returns describes no cause; the
claim's "returns an error describing the cause" is false of the code,
whose `std::optional<fs::path>` has a single failure value and whose
cause text goes only to stdout. -/
theorem C5_error_carries_no_cause :
    plain_get wNetFail (plainInit "d" 3) "u1" =
      plain_get wHttp404 (plainInit "d" 3) "u1" ∧
    (plain_get wNetFail (plainInit "d" 3) "u1").1 = none ∧
    ft_get wNetFail (ftInit "d" 3) "u1" =
      ft_get wHttp404 (ftInit "d" 3) "u1" ∧
    (ft_get wNetFail (ftInit "d" 3) "u1").1 = none := by
  decide

/-- C5, amended: fetch-failure atomicity.  On a miss whose remote fetch
fails (transport error or non-200 status), get returns a bare failure —
`std::nullopt`, carrying no description of the cause, which is only
logged — and mutates neither the recency index nor the store, except,
in the functools variant, the pre-fetch eviction, which runs before the
transfer. -/
theorem C5_fetch_failure_atomicity (w : World) (sp : PlainState)
    (sf : FtState) (url : String) :
    (plainCachePath w sp url ∉ sp.store → netFails (w.net url) →
      plain_get w sp url = (none, { sp with fetches := sp.fetches + 1 })) ∧
    (ftCachePath w sf url ∉ sf.store.map Prod.fst → netFails (w.net url) →
      ft_get w sf url =
        (none, { sf with store := ftEvictOldest sf.maxSize sf.store,
                         fetches := sf.fetches + 1 })) := by
  constructor
  · intro hmem hfail
    rw [plain_get_miss w sp url hmem, plain_fetch_impl_fail w sp url hfail]
  · intro hmem hfail
    rw [ft_get_miss w sf url hmem, ft_fetch_impl_fail w sf url hfail]

/-- C5, witness: a failing transfer against the fresh caches. -/
theorem C5_fetch_failure_atomicity_witness :
    plain_get wNetFail (plainInit "d" 3) "u1" =
      (none, { plainInit "d" 3 with fetches := 1 }) ∧
    ft_get wNetFail (ftInit "d" 3) "u1" =
      (none, { ftInit "d" 3 with store := ftEvictOldest 3 [], fetches := 1 }) := by
  have h := C5_fetch_failure_atomicity wNetFail (plainInit "d" 3)
    (ftInit "d" 3) "u1"
  exact ⟨h.1 (by decide) (Or.inl rfl), h.2 (by decide) (Or.inl rfl)⟩

/-- C6, counterexample: with a failing filesystem write, a successful
remote fetch still inserts the key into the recency index even though no
bytes were persisted, so a failed write does leave the index referencing
the key; the claim as stated is false. -/
theorem C6_failed_write_indexed :
    (plainRun wWriteFail (plainInit "d" 3) [CacheOp.opGet "u1"]).items.map
        Prod.fst = ["u1"] ∧
    (plainRun wWriteFail (plainInit "d" 3) [CacheOp.opGet "u1"]).store = [] := by
  decide

/-- C6, amended: on a successful remote fetch the bytes are written to
the Store before the key is inserted as most recent into the recency
index, but the write's outcome is never checked: the insertion happens
unconditionally after the write attempt, in both variants, so the store
holds the key afterwards exactly when the write succeeded. -/
theorem C6_commit_ordering_amended (w : World) (sp : PlainState)
    (sf : FtState) (url : String) :
    (plainCachePath w sp url ∉ sp.store →
      w.net url = RemoteOutcome.response 200 →
      ((plain_get w sp url).2.items.head? =
          some (url, plainCachePath w sp url) ∧
       (w.writeOk (plainCachePath w sp url) = true →
         plainCachePath w sp url ∈ (plain_get w sp url).2.store) ∧
       (w.writeOk (plainCachePath w sp url) = false →
         plainCachePath w sp url ∉ (plain_get w sp url).2.store))) ∧
    (ftCachePath w sf url ∉ sf.store.map Prod.fst →
      w.net url = RemoteOutcome.response 200 →
      ((ft_get w sf url).2.accessOrder.getLast? = some url ∧
       (w.writeOk (ftCachePath w sf url) = true →
         ftCachePath w sf url ∈ (ft_get w sf url).2.store.map Prod.fst) ∧
       (w.writeOk (ftCachePath w sf url) = false →
         ftCachePath w sf url ∉ (ft_get w sf url).2.store.map Prod.fst))) := by
  constructor
  · intro hmem hnet
    rw [plain_get_miss w sp url hmem, plain_fetch_impl_ok w sp url hnet]
    refine ⟨lruPut_head _ _ _ _, fun hw => ?_, fun hw => ?_⟩
    · show plainCachePath w sp url ∈
        (if w.writeOk (plainCachePath w sp url) then
          (if plainCachePath w sp url ∈ sp.store then sp.store
           else plainCachePath w sp url :: sp.store)
         else sp.store)
      rw [if_pos hw, if_neg hmem]
      exact List.mem_cons_self _ _
    · show plainCachePath w sp url ∉
        (if w.writeOk (plainCachePath w sp url) then
          (if plainCachePath w sp url ∈ sp.store then sp.store
           else plainCachePath w sp url :: sp.store)
         else sp.store)
      rw [hw]
      simp only [Bool.false_eq_true, if_false]
      exact hmem
  · intro hmem hnet
    rw [ft_get_miss w sf url hmem, ft_fetch_impl_ok w sf url hnet]
    refine ⟨List.getLast?_concat _, fun hw => ?_, fun hw => ?_⟩
    · show ftCachePath w sf url ∈
        ((if w.writeOk (ftCachePath w sf url) then
          (ftCachePath w sf url, sf.clock) ::
            (ftEvictOldest sf.maxSize sf.store).filter
              (fun f => ¬ f.1 = ftCachePath w sf url)
         else ftEvictOldest sf.maxSize sf.store)).map Prod.fst
      rw [if_pos hw]
      exact List.mem_map.mpr ⟨_, List.mem_cons_self _ _, rfl⟩
    · show ftCachePath w sf url ∉
        ((if w.writeOk (ftCachePath w sf url) then
          (ftCachePath w sf url, sf.clock) ::
            (ftEvictOldest sf.maxSize sf.store).filter
              (fun f => ¬ f.1 = ftCachePath w sf url)
         else ftEvictOldest sf.maxSize sf.store)).map Prod.fst
      rw [hw]
      simp only [Bool.false_eq_true, if_false]
      exact fun hx => hmem (ftEvictOldest_fst_subset _ _ _ hx)

/-- C6, witness: a successful fetch on the fresh caches, with
succeeding writes. -/
theorem C6_commit_ordering_amended_witness :
    (plain_get wOk (plainInit "d" 3) "u1").2.items.head? =
      some ("u1", plainCachePath wOk (plainInit "d" 3) "u1") ∧
    plainCachePath wOk (plainInit "d" 3) "u1" ∈
      (plain_get wOk (plainInit "d" 3) "u1").2.store ∧
    (ft_get wOk (ftInit "d" 3) "u1").2.accessOrder.getLast? = some "u1" ∧
    ftCachePath wOk (ftInit "d" 3) "u1" ∈
      (ft_get wOk (ftInit "d" 3) "u1").2.store.map Prod.fst := by
  have h := C6_commit_ordering_amended wOk (plainInit "d" 3)
    (ftInit "d" 3) "u1"
  have hp := h.1 (by decide) rfl
  have hf := h.2 (by decide) rfl
  exact ⟨hp.1, hp.2.1 rfl, hf.1, hf.2.1 rfl⟩

/-- C7, counterexample: with u1 cached, a forced refresh whose remote
fetch fails leaves u1's bytes in the Store and (in the plain variant)
its entry in the recency index: nothing was removed or deleted before
the fetch, so "first removes the key ... and deletes its bytes" is
false. -/
theorem C7_forced_refresh_keeps_bytes :
    (plain_fetch wNetFail spCached "u1" true).2.store = ["d/u1.jpg"] ∧
    (plain_fetch wNetFail spCached "u1" true).2.items =
      [("u1", "d/u1.jpg")] := by
  decide

/-- C7, amended: a fetch with forceRefresh true always performs a remote
fetch, even when the identifier is cached; neither variant deletes the
key's bytes from the Store beforehand (on failure the plain variant's
state is unchanged and the functools variant's store has seen only the
generic pre-fetch eviction); the functools variant removes the key from
its recency index before fetching, the plain variant does not touch its
index entry. -/
theorem C7_forced_refresh_amended (w : World) (sp : PlainState)
    (sf : FtState) (url : String) :
    (plain_fetch w sp url true).2.fetches = sp.fetches + 1 ∧
    (ft_fetch w sf url true).2.fetches = sf.fetches + 1 ∧
    (netFails (w.net url) →
      (plain_fetch w sp url true).2.items = sp.items ∧
      (plain_fetch w sp url true).2.store = sp.store) ∧
    (netFails (w.net url) → sf.accessOrder.Nodup →
      url ∉ (ft_fetch w sf url true).2.accessOrder ∧
      (ft_fetch w sf url true).2.store = ftEvictOldest sf.maxSize sf.store) := by
  refine ⟨?_, ?_, ?_, ?_⟩
  · rw [plain_fetch_forced]
    exact plain_fetch_impl_fetches w sp url
  · rw [ft_fetch_forced]
    exact ft_fetch_impl_fetches w _ url
  · intro hfail
    rw [plain_fetch_forced, plain_fetch_impl_fail w sp url hfail]
    exact ⟨rfl, rfl⟩
  · intro hfail hnd
    rw [ft_fetch_forced, ft_fetch_impl_fail w _ url hfail]
    constructor
    · show url ∉ sf.accessOrder.erase url
      by_cases hmem : url ∈ sf.accessOrder
      · exact hnd.not_mem_erase
      · rw [List.erase_of_not_mem hmem]
        exact hmem
    · rfl

/-- C7, witness: a forced refresh of a cached identifier with a failing
transfer. -/
theorem C7_forced_refresh_amended_witness :
    (plain_fetch wNetFail spCached "u1" true).2.fetches =
      spCached.fetches + 1 ∧
    (ft_fetch wNetFail sfCached "u1" true).2.fetches =
      sfCached.fetches + 1 ∧
    (plain_fetch wNetFail spCached "u1" true).2.store = spCached.store ∧
    "u1" ∉ (ft_fetch wNetFail sfCached "u1" true).2.accessOrder := by
  have h := C7_forced_refresh_amended wNetFail spCached sfCached "u1"
  exact ⟨h.1, h.2.1, (h.2.2.1 (Or.inl rfl)).2,
    (h.2.2.2 (Or.inl rfl) (by decide)).1⟩

/-- C8, counterexample: `touch_url` on a key absent from the recency
index is not a no-op — it inserts the key. -/
theorem C8_touch_url_inserts_absent :
    ft_touch_url "u1" [] = ["u1"] ∧ ft_touch_url "u1" [] ≠ [] := by
  decide

/-- C8, amended: the plain variant's `touch` moves a present key's entry
to the most-recent position (a permutation of the index) and is a no-op
on an absent key, and is idempotent; the functools variant's `touch_url`
always leaves the key at the most-recent position, inserting it when
absent (not a no-op), and is idempotent on duplicate-free indexes. -/
theorem C8_touch_semantics_amended (k : String)
    (items : List (String × String)) (order : List String) :
    ((∀ e ∈ items, e.1 ≠ k) → lruTouch k items = items) ∧
    (∀ e, items.find? (fun p => p.1 == k) = some e →
      (lruTouch k items).head? = some e ∧ (lruTouch k items).Perm items) ∧
    lruTouch k (lruTouch k items) = lruTouch k items ∧
    (k ∉ order → ft_touch_url k order = order ++ [k]) ∧
    (ft_touch_url k order).getLast? = some k ∧
    (order.Nodup → ft_touch_url k (ft_touch_url k order) = ft_touch_url k order) := by
  refine ⟨?_, ?_, ?_, ?_, ?_, ?_⟩
  · intro h
    unfold lruTouch
    rw [List.find?_eq_none.mpr (fun x hx => by simpa using h x hx)]
  · intro e he
    have h1 : lruTouch k items = e :: items.eraseP (fun p => p.1 == k) := by
      unfold lruTouch
      rw [he]
    rw [h1]
    exact ⟨rfl, (find?_cons_eraseP_perm he).symm⟩
  · cases hf : items.find? (fun p => p.1 == k) with
    | none =>
      have h1 : lruTouch k items = items := by
        unfold lruTouch
        rw [hf]
      rw [h1]
      exact h1
    | some e =>
      have hpe := List.find?_some hf
      have h1 : lruTouch k items = e :: items.eraseP (fun p => p.1 == k) := by
        unfold lruTouch
        rw [hf]
      rw [h1]
      unfold lruTouch
      have h2 : List.find? (fun p => p.1 == k)
          (e :: items.eraseP (fun p => p.1 == k)) = some e :=
        List.find?_cons_of_pos _ hpe
      have h3 : List.eraseP (fun p => p.1 == k)
          (e :: items.eraseP (fun p => p.1 == k)) =
          items.eraseP (fun p => p.1 == k) :=
        List.eraseP_cons_of_pos hpe
      rw [h2, h3]
  · intro h
    unfold ft_touch_url
    rw [List.erase_of_not_mem h]
  · exact List.getLast?_concat _
  · intro hnd
    unfold ft_touch_url
    have hk : k ∉ order.erase k := by
      by_cases hmem : k ∈ order
      · exact hnd.not_mem_erase
      · rw [List.erase_of_not_mem hmem]
        exact hmem
    rw [List.erase_append_right _ hk, List.erase_cons_head]
    simp

/-- C8, witness: the no-op, move-to-front and idempotence facts at
concrete indexes. -/
theorem C8_touch_semantics_amended_witness :
    lruTouch "v" [] = [] ∧
    (lruTouch "a" [("a", "p")]).head? = some ("a", "p") ∧
    ft_touch_url "v" [] = [] ++ ["v"] ∧
    ft_touch_url "a" (ft_touch_url "a" ["a"]) = ft_touch_url "a" ["a"] := by
  refine ⟨(C8_touch_semantics_amended "v" [] []).1 (by simp),
    ((C8_touch_semantics_amended "a" [("a", "p")] []).2.1 ("a", "p")
      (by decide)).1,
    (C8_touch_semantics_amended "v" [] []).2.2.2.1 (by simp),
    (C8_touch_semantics_amended "a" [] ["a"]).2.2.2.2.2 (by decide)⟩

/-- C9, counterexample: for the identifier "file." the key the code
derives is the digest followed by a bare dot (the C++ extension of
"file." is "."), while the claim's rule — default extension when the
text after the last dot is empty — yields the digest followed by
".jpg". -/
theorem C9_trailing_dot_key :
    url_to_filename (fun s => s) "file." ≠ specKeyFor (fun s => s) "file." := by
  decide

/-- C9, amended: `url_to_filename` is deterministic and pure, and equals
the identifier's digest concatenated with the C++ filesystem extension
of the identifier's final path segment — the substring from the last dot
(dot included), empty when the segment is dot, dot-dot, dot-less, or has
its only dot leading — with the fixed default ".jpg" when that extension
is empty. -/
theorem C9_key_derivation_amended (digest : String → String)
    (url u2 : String) :
    (url = u2 → url_to_filename digest url = url_to_filename digest u2) ∧
    url_to_filename digest url =
      digest url ++
        (if amendedExt (filenameOf url) = "" then ".jpg"
         else amendedExt (filenameOf url)) := by
  constructor
  · intro h
    rw [h]
  · simp only [url_to_filename]
    rw [cppExtension_eq_amendedExt]

/-- C9, witness: the key of a concrete identifier. -/
theorem C9_key_derivation_amended_witness :
    url_to_filename (fun s => s) "a/b.png" =
      url_to_filename (fun s => s) "a/b.png" ∧
    url_to_filename (fun s => s) "a/b.png" =
      (fun s : String => s) "a/b.png" ++
        (if amendedExt (filenameOf "a/b.png") = "" then ".jpg"
         else amendedExt (filenameOf "a/b.png")) :=
  ⟨(C9_key_derivation_amended (fun s => s) "a/b.png" "a/b.png").1 rfl,
   (C9_key_derivation_amended (fun s => s) "a/b.png" "a/b.png").2⟩

/-- C10, counterexample: in the functools variant a hit on a file
present in the Store but absent from the access-order list (as after a
restart) inserts the key into the recency index: the index's membership
changes, not merely its ordering, so the claim as stated is false. -/
theorem C10_hit_grows_index :
    "u1" ∉ sfEmptyIdx.accessOrder ∧
    "u1" ∈ (ft_get wOk sfEmptyIdx "u1").2.accessOrder := by
  decide

/-- C10, amended: a hit changes nothing in the Store — no file is
created, deleted or overwritten, and the returned path is the key's
cache path; the plain variant's recency index is only permuted, while
the functools variant's index keeps its members and may additionally
gain the hit key when it was absent. -/
theorem C10_hit_frame_amended (w : World) (sp : PlainState) (sf : FtState)
    (url : String) :
    (plainCachePath w sp url ∈ sp.store →
      plain_get w sp url =
        (some (plainCachePath w sp url),
          { sp with items := lruTouch url sp.items }) ∧
      (lruTouch url sp.items).Perm sp.items) ∧
    (ftCachePath w sf url ∈ sf.store.map Prod.fst →
      ft_get w sf url =
        (some (ftCachePath w sf url),
          { sf with accessOrder := ft_touch_url url sf.accessOrder }) ∧
      (∀ u, u ∈ ft_touch_url url sf.accessOrder ↔
        (u ∈ sf.accessOrder ∨ u = url))) := by
  constructor
  · intro h
    exact ⟨plain_get_hit w sp url h, lruTouch_perm url sp.items⟩
  · intro h
    refine ⟨ft_get_hit w sf url h, fun u => ?_⟩
    unfold ft_touch_url
    constructor
    · intro hu
      rcases List.mem_append.mp hu with hu | hu
      · exact Or.inl (List.erase_subset _ _ hu)
      · exact Or.inr (List.mem_singleton.mp hu)
    · intro hu
      rcases hu with hu | hu
      · by_cases huk : u = url
        · exact List.mem_append_right _ (huk ▸ List.mem_singleton_self u)
        · exact List.mem_append_left _ ((List.mem_erase_of_ne huk).mpr hu)
      · exact List.mem_append_right _ (hu ▸ List.mem_singleton_self u)

/-- C10, witness: a hit on cached states, both variants. -/
theorem C10_hit_frame_amended_witness :
    (plain_get wOk spCached "u1" =
      (some (plainCachePath wOk spCached "u1"),
        { spCached with items := lruTouch "u1" spCached.items }) ∧
     (lruTouch "u1" spCached.items).Perm spCached.items) ∧
    (ft_get wOk sfCached "u1" =
      (some (ftCachePath wOk sfCached "u1"),
        { sfCached with accessOrder := ft_touch_url "u1" sfCached.accessOrder }) ∧
     ("u1" ∈ ft_touch_url "u1" sfCached.accessOrder ↔
       ("u1" ∈ sfCached.accessOrder ∨ "u1" = "u1"))) := by
  have h := C10_hit_frame_amended wOk spCached sfCached "u1"
  have h1 := h.1 (by decide)
  have h2 := h.2 (by decide)
  exact ⟨h1, h2.1, h2.2 "u1"⟩
